import Mathlib

/-!
Shallow embedding of `src/main.rs` (artist streaming regression tool).

Modelling choices:
* `f64` values are embedded as an idealized IEEE-754 double `FP`: finite values
  are exact rationals (rounding and overflow are not modelled), together with
  the special values `+inf`, `-inf` and `NaN`.  Division by a zero denominator
  follows the IEEE rules (`0/0 = NaN`, `q/0 = ±inf`), which is what
  `calculate_regression` relies on for degenerate inputs.
* The CSV reader is embedded at the level of its output: an input table is a
  list of data rows (the header row already skipped by `csv::Reader`), each row
  a list of cell strings.  Structural read errors (missing file, rows with
  inconsistent field counts) happen before this level and are not modelled;
  everything from cells to records is total, as in the source.
* Rust's `str::parse::<f64>` is embedded twice: `parseF64` covers the decimal
  grammar (optional sign, digits, optional fraction, optional exponent) with
  exact rational values and is used for the claims whose cells only produce
  finite values; `parseF64F` additionally covers the case-insensitive
  `inf`/`infinity`/`nan` literal forms, producing `FP` values, and carries the
  claims for which non-finite field values matter (overflow of huge finite
  decimals to ±infinity is still not modelled; it can only turn a value into
  an infinity of the same sign).
-/

/-- Idealized IEEE-754 double: exact rational finite values plus `+inf`,
`-inf` and `NaN`. -/
inductive FP where
  | fin (q : ℚ)
  | posInf
  | negInf
  | nan
deriving DecidableEq

/-- `true` exactly on finite values (neither an infinity nor NaN). -/
def FP.isFinite : FP → Bool
  | .fin _ => true
  | _ => false

/-- IEEE multiplication on the idealized doubles (finite products exact). -/
def FP.mul : FP → FP → FP
  | .nan, _ => .nan
  | _, .nan => .nan
  | .fin a, .fin b => .fin (a * b)
  | .fin a, .posInf => if 0 < a then .posInf else if a < 0 then .negInf else .nan
  | .fin a, .negInf => if 0 < a then .negInf else if a < 0 then .posInf else .nan
  | .posInf, .fin b => if 0 < b then .posInf else if b < 0 then .negInf else .nan
  | .negInf, .fin b => if 0 < b then .negInf else if b < 0 then .posInf else .nan
  | .posInf, .posInf => .posInf
  | .posInf, .negInf => .negInf
  | .negInf, .posInf => .negInf
  | .negInf, .negInf => .posInf

/-- IEEE subtraction on the idealized doubles (finite differences exact). -/
def FP.sub : FP → FP → FP
  | .nan, _ => .nan
  | _, .nan => .nan
  | .fin a, .fin b => .fin (a - b)
  | .fin _, .posInf => .negInf
  | .fin _, .negInf => .posInf
  | .posInf, .fin _ => .posInf
  | .negInf, .fin _ => .negInf
  | .posInf, .posInf => .nan
  | .posInf, .negInf => .posInf
  | .negInf, .posInf => .negInf
  | .negInf, .negInf => .nan

/-- IEEE division on the idealized doubles: a zero denominator under a nonzero
finite numerator gives a signed infinity, `0/0` gives NaN. -/
def FP.div : FP → FP → FP
  | .nan, _ => .nan
  | _, .nan => .nan
  | .fin a, .fin b =>
      if b = 0 then (if a = 0 then .nan else if 0 < a then .posInf else .negInf)
      else .fin (a / b)
  | .fin _, .posInf => .fin 0
  | .fin _, .negInf => .fin 0
  | .posInf, .fin b => if 0 ≤ b then .posInf else .negInf
  | .negInf, .fin b => if 0 ≤ b then .negInf else .posInf
  | .posInf, _ => .nan
  | .negInf, _ => .nan

/-- IEEE `0.0 <= x`: true for non-negative finite values and `+inf`, false
for negative finite values, `-inf`, and NaN. -/
def FP.isNonneg : FP → Bool
  | .fin q => decide (0 ≤ q)
  | .posInf => true
  | .negInf => false
  | .nan => false

/-- One parsed data row of the dataset (`struct ArtistData` in src/main.rs). -/
structure ArtistData where
  total_streams : ℚ
  solo_streams : ℚ
  feature_streams : ℚ
  lead_streams : ℚ
deriving DecidableEq

/-- Splits a leading sign off a character list, returning whether the value is
negated and the remaining characters (embeds sign handling of Rust's float
grammar). -/
def splitSign (cs : List Char) : Bool × List Char :=
  match cs with
  | [] => (false, [])
  | c :: r => if c = '-' then (true, r) else if c = '+' then (false, r) else (false, c :: r)

/-- Takes the longest prefix of decimal digits, returning it with the rest. -/
def takeDigits : List Char → List Char × List Char
  | [] => ([], [])
  | c :: r =>
      if c.isDigit then
        let p := takeDigits r
        (c :: p.1, p.2)
      else ([], c :: r)

/-- Value of a list of decimal digit characters, most significant first. -/
def digitsToNat (l : List Char) : ℕ :=
  l.foldl (fun a c => 10 * a + (c.toNat - 48)) 0

/-- Parses an unsigned decimal mantissa `digits [. digits]` (at least one digit
overall), returning its exact value and the unconsumed characters. -/
def parseMantissa (cs : List Char) : Option (ℚ × List Char) :=
  let ip := takeDigits cs
  match ip.2 with
  | '.' :: r2 =>
      let fp := takeDigits r2
      if ip.1.isEmpty ∧ fp.1.isEmpty then none
      else some ((digitsToNat ip.1 : ℚ) + (digitsToNat fp.1 : ℚ) / (10 ^ fp.1.length), fp.2)
  | _ => if ip.1.isEmpty then none else some ((digitsToNat ip.1 : ℚ), ip.2)

/-- Embeds Rust's `str::parse::<f64>` on the decimal grammar, with exact
rational values (no rounding; the textual `inf`/`nan` forms are not modelled).
Returns `none` when the string is not a well-formed number. -/
def parseF64 (s : String) : Option ℚ :=
  let sg := splitSign s.data
  match parseMantissa sg.2 with
  | none => none
  | some (m, rest) =>
      let v : Option ℚ :=
        match rest with
        | [] => some m
        | 'e' :: r => parseExpPart m r
        | 'E' :: r => parseExpPart m r
        | _ => none
      v.map fun q => if sg.1 then -q else q
where
  /-- Applies an exponent part `[+-] digits` to a mantissa value. -/
  parseExpPart (m : ℚ) (r : List Char) : Option ℚ :=
    let esg := splitSign r
    let ed := takeDigits esg.2
    if ed.1.isEmpty ∨ ¬ ed.2.isEmpty then none
    else some (if esg.1 then m / 10 ^ digitsToNat ed.1 else m * 10 ^ digitsToNat ed.1)

/-- Embeds `.replace(',', "")`: removes every comma character. -/
def stripCommas (s : String) : String :=
  String.mk (s.data.filter fun c => c ≠ ',')

/-- Embeds the per-cell pipeline of `parse_artist_data`: an absent cell is
replaced by `"0"` (`unwrap_or("0")`), commas are stripped, the text is parsed
and any parse failure is replaced by `0.0` (`unwrap_or_else(|_| 0.0)`). -/
def fieldValue (row : List String) (i : ℕ) : ℚ :=
  (parseF64 (stripCommas ((row.get? i).getD "0"))).getD 0

/-- Embeds the body of the record loop of `parse_artist_data`: total streams
from column 1, solo from column 3, feature from column 5, lead from column 4. -/
def rowToRecord (row : List String) : ArtistData :=
  { total_streams := fieldValue row 1
    solo_streams := fieldValue row 3
    feature_streams := fieldValue row 5
    lead_streams := fieldValue row 4 }

/-- Embeds `parse_artist_data` on the sequence of data rows delivered by the
CSV reader (header already skipped); structural read errors are outside the
embedding, everything at this level is total. -/
def parse_artist_data (rows : List (List String)) : List ArtistData :=
  rows.map rowToRecord

/-- The unsigned part of the decimal grammar of Rust's `str::parse::<f64>`:
mantissa with optional exponent, whole input consumed, exact rational value. -/
def parseUnsigned (cs : List Char) : Option ℚ :=
  match parseMantissa cs with
  | none => none
  | some (m, rest) =>
      match rest with
      | [] => some m
      | 'e' :: r => parseF64.parseExpPart m r
      | 'E' :: r => parseF64.parseExpPart m r
      | _ => none

/-- Full-fidelity embedding of Rust's `str::parse::<f64>`: an optional sign
followed by either a case-insensitive `inf`/`infinity`/`nan` literal or a
decimal number; finite decimal values are exact rationals (rounding and
overflow to ±infinity are not modelled). -/
def parseF64F (s : String) : Option FP :=
  let sg := splitSign s.data
  let low := sg.2.map Char.toLower
  if low = ['i', 'n', 'f'] ∨ low = ['i', 'n', 'f', 'i', 'n', 'i', 't', 'y'] then
    some (if sg.1 then FP.negInf else FP.posInf)
  else if low = ['n', 'a', 'n'] then
    some FP.nan
  else
    (parseUnsigned sg.2).map fun q => FP.fin (if sg.1 then -q else q)

/-- `ArtistData` with full-fidelity `FP`-valued fields: the record the source
produces when non-finite cell values (inf/nan cells) are taken into account. -/
structure ArtistDataF where
  total_streams : FP
  solo_streams : FP
  feature_streams : FP
  lead_streams : FP
deriving DecidableEq

/-- The per-cell pipeline of `parse_artist_data` with the full-fidelity
parser: absent cell → "0", strip commas, parse, parse failure → 0.0. -/
def fieldValueF (row : List String) (i : ℕ) : FP :=
  (parseF64F (stripCommas ((row.get? i).getD "0"))).getD (FP.fin 0)

/-- The record-loop body of `parse_artist_data` over full-fidelity values:
total from column 1, solo from column 3, feature from column 5, lead from
column 4. -/
def rowToRecordF (row : List String) : ArtistDataF :=
  { total_streams := fieldValueF row 1
    solo_streams := fieldValueF row 3
    feature_streams := fieldValueF row 5
    lead_streams := fieldValueF row 4 }

/-- `parse_artist_data` over full-fidelity values, on the data rows delivered
by the CSV reader. -/
def parse_artist_dataF (rows : List (List String)) : List ArtistDataF :=
  rows.map rowToRecordF

/-- Embeds `calculate_regression` from src/main.rs: closed-form OLS sums with
the source's exact order of operations; the two divisions are IEEE divisions,
so degenerate inputs produce non-finite values instead of errors. -/
def calculate_regression (data : List (ℚ × ℚ)) : FP × FP :=
  let n : ℚ := data.length
  let sum_x : ℚ := (data.map fun p => p.1).sum
  let sum_y : ℚ := (data.map fun p => p.2).sum
  let sum_xy : ℚ := (data.map fun p => p.1 * p.2).sum
  let sum_xx : ℚ := (data.map fun p => p.1 * p.1).sum
  let slope := FP.div (.fin (n * sum_xy - sum_x * sum_y)) (.fin (n * sum_xx - sum_x * sum_x))
  let intercept := FP.div (FP.sub (.fin sum_y) (FP.mul slope (.fin sum_x))) (.fin n)
  (slope, intercept)

/-- Embeds the pairing built in `main` for the solo relationship:
`(d.solo_streams, d.total_streams)` per record, in order. -/
def solo_data (data : List ArtistData) : List (ℚ × ℚ) :=
  data.map fun d => (d.solo_streams, d.total_streams)

/-- Embeds the pairing built in `main` for the feature relationship. -/
def feature_data (data : List ArtistData) : List (ℚ × ℚ) :=
  data.map fun d => (d.feature_streams, d.total_streams)

/-- Embeds the pairing built in `main` for the lead relationship. -/
def lead_data (data : List ArtistData) : List (ℚ × ℚ) :=
  data.map fun d => (d.lead_streams, d.total_streams)

/-- The (title, output path) pairs that `main` passes to
`visualize_relationship`, in call order; both strings are literals in the
source. -/
def relationship_outputs : List (String × String) :=
  [("Total Streams vs Solo Streams", "solo_relationship.png"),
   ("Total Streams vs Featured Streams", "featured_relationship.png"),
   ("Total Streams vs Lead Streams", "lead_relationship.png")]

/-- Spec-side definition, following the spec's words for comparison with the
source: derive an output path from a relationship title by lower-casing,
replacing spaces with underscores, and appending ".png". -/
def titleToPath (t : String) : String :=
  String.mk (t.data.map fun c => if c = ' ' then '_' else c.toLower) ++ ".png"

/-- Spec-side sum of a function over samples, by explicit recursion, for
comparison with the source's `map`/`sum` pipeline. -/
def sumBy (f : ℚ × ℚ → ℚ) : List (ℚ × ℚ) → ℚ
  | [] => 0
  | p :: t => f p + sumBy f t

/-- Spec-side OLS slope: `(n·Sxy − Sx·Sy) / (n·Sxx − Sx²)` over the spec's
closed-form sums, with IEEE division. -/
def olsSlope (data : List (ℚ × ℚ)) : FP :=
  let n : ℚ := data.length
  FP.div
    (.fin (n * sumBy (fun p => p.1 * p.2) data - sumBy (fun p => p.1) data * sumBy (fun p => p.2) data))
    (.fin (n * sumBy (fun p => p.1 * p.1) data - sumBy (fun p => p.1) data * sumBy (fun p => p.1) data))

/-- Spec-side OLS intercept: `(Sy − slope·Sx) / n` with IEEE operations. -/
def olsIntercept (data : List (ℚ × ℚ)) : FP :=
  let n : ℚ := data.length
  FP.div
    (FP.sub (.fin (sumBy (fun p => p.2) data)) (FP.mul (olsSlope data) (.fin (sumBy (fun p => p.1) data))))
    (.fin n)

/-- `Sx`, the sum of sample x values (for reasoning about the regression). -/
def sumX (data : List (ℚ × ℚ)) : ℚ := (data.map fun p => p.1).sum

/-- `Sy`, the sum of sample y values. -/
def sumY (data : List (ℚ × ℚ)) : ℚ := (data.map fun p => p.2).sum

/-- `Sxy`, the sum of the products x·y. -/
def sumXY (data : List (ℚ × ℚ)) : ℚ := (data.map fun p => p.1 * p.2).sum

/-- `Sxx`, the sum of the squares x². -/
def sumXX (data : List (ℚ × ℚ)) : ℚ := (data.map fun p => p.1 * p.1).sum

/-- The OLS denominator `n·Sxx − Sx²` as an exact rational; it is nonzero
exactly on non-degenerate samples. -/
def regDenom (data : List (ℚ × ℚ)) : ℚ :=
  (data.length : ℚ) * sumXX data - sumX data * sumX data

/-- The exact rational value of the slope on non-degenerate samples. -/
def slopeQ (data : List (ℚ × ℚ)) : ℚ :=
  ((data.length : ℚ) * sumXY data - sumX data * sumY data) / regDenom data

/-- The exact rational value of the intercept on non-degenerate samples. -/
def interceptQ (data : List (ℚ × ℚ)) : ℚ :=
  (sumY data - slopeQ data * sumX data) / (data.length : ℚ)

/-! Helper lemmas. -/

theorem FP.div_fin_of_ne (a b : ℚ) (hb : b ≠ 0) : FP.div (.fin a) (.fin b) = .fin (a / b) := by
  simp [FP.div, hb]

theorem FP.mul_fin (a b : ℚ) : FP.mul (.fin a) (.fin b) = .fin (a * b) := rfl

theorem FP.sub_fin (a b : ℚ) : FP.sub (.fin a) (.fin b) = .fin (a - b) := rfl

theorem sumBy_eq_sum (f : ℚ × ℚ → ℚ) (data : List (ℚ × ℚ)) :
    sumBy f data = (data.map f).sum := by
  induction data with
  | nil => rfl
  | cons p t ih => simp [sumBy, ih]

/-- C1. For every non-empty sample sequence, `calculate_regression` returns
exactly the closed-form OLS line: slope `(n·Sxy − Sx·Sy) / (n·Sxx − Sx²)` and
intercept `(Sy − slope·Sx) / n`, with the source's order of operations (spec
sums written by independent recursion in `olsSlope` / `olsIntercept`). -/
theorem c1_regression_matches_ols_formula (data : List (ℚ × ℚ)) (_h : data ≠ []) :
    (calculate_regression data).1 = olsSlope data ∧
    (calculate_regression data).2 = olsIntercept data := by
  constructor <;> simp [calculate_regression, olsSlope, olsIntercept, sumBy_eq_sum]

/-- Witness for C1 at the concrete samples [(1,2),(2,5)]. -/
theorem c1_regression_matches_ols_formula_witness :
    ([((1 : ℚ), (2 : ℚ)), (2, 5)] ≠ []) ∧
    (calculate_regression [((1 : ℚ), (2 : ℚ)), (2, 5)]).1 = olsSlope [((1 : ℚ), (2 : ℚ)), (2, 5)] ∧
    (calculate_regression [((1 : ℚ), (2 : ℚ)), (2, 5)]).2 = olsIntercept [((1 : ℚ), (2 : ℚ)), (2, 5)] :=
  ⟨by decide, c1_regression_matches_ols_formula [((1 : ℚ), (2 : ℚ)), (2, 5)] (by decide)⟩

/-- C2 counterexample. On the two scenario rows, the loader reads solo streams
from column index 3, so the solo values are [300, 600], not [500, 800] as the
claim asserts (and feature streams, column 5, are absent, hence 0). -/
theorem c2_end_to_end_counterexample :
    (parse_artist_data [["Artist1", "1000", "500", "300", "200"],
        ["Artist2", "2000", "800", "600", "400"]]).map ArtistData.solo_streams = [300, 600] ∧
    ([(300 : ℚ), 600] ≠ [500, 800]) := by
  decide

/-- C2 amended. On the scenario rows the loader yields records
(total=1000, solo=300, lead=200, feature=0) and (total=2000, solo=600,
lead=400, feature=0); the solo-vs-total samples are [(300,1000),(600,2000)]
and the regression on them is slope 10/3, intercept 0. -/
theorem c2_end_to_end_amended :
    parse_artist_data [["Artist1", "1000", "500", "300", "200"],
        ["Artist2", "2000", "800", "600", "400"]] =
      [⟨1000, 300, 0, 200⟩, ⟨2000, 600, 0, 400⟩] ∧
    solo_data [⟨1000, 300, 0, 200⟩, ⟨2000, 600, 0, 400⟩] = [(300, 1000), (600, 2000)] ∧
    calculate_regression [((300 : ℚ), 1000), (600, 2000)] = (.fin (10 / 3), .fin 0) := by
  refine ⟨by decide, by decide, ?_⟩
  norm_num [calculate_regression, FP.div, FP.sub, FP.mul]

/-- C3. The loader's per-cell coercion is total: a missing cell yields 0.0
(via the "0" default) and a cell whose comma-stripped text does not parse
yields 0.0; no cell content can produce an error. -/
theorem c3_cell_coercion_total (row : List String) (i : ℕ) :
    (row.get? i = none → fieldValue row i = 0) ∧
    (∀ s, row.get? i = some s → parseF64 (stripCommas s) = none → fieldValue row i = 0) := by
  constructor
  · intro h
    simp only [fieldValue, h, Option.getD_none]
    decide
  · intro s hs hp
    simp only [fieldValue, hs, Option.getD_some, hp, Option.getD_none]

/-- Witness for C3: a missing cell (row too short) and an unparseable cell
both coerce to 0. -/
theorem c3_cell_coercion_total_witness :
    fieldValue ["A"] 1 = 0 ∧ fieldValue ["A", "abc"] 1 = 0 :=
  ⟨(c3_cell_coercion_total ["A"] 1).1 (by decide),
   (c3_cell_coercion_total ["A", "abc"] 1).2 "abc" (by decide) (by decide)⟩

/-- C4 counterexample. The output path `main` passes for the relationship
titled "Total Streams vs Solo Streams" is the literal "solo_relationship.png",
which differs from the title-derived path "total_streams_vs_solo_streams.png". -/
theorem c4_output_path_counterexample :
    relationship_outputs.get? 0 =
      some ("Total Streams vs Solo Streams", "solo_relationship.png") ∧
    ("solo_relationship.png" : String) ≠ titleToPath "Total Streams vs Solo Streams" := by
  decide

/-- C4 amended. Each relationship's output path is a fixed literal
("solo_relationship.png", "featured_relationship.png",
"lead_relationship.png"); none is derived from its title by the
lower-case/underscore/".png" rule. -/
theorem c4_output_path_amended :
    relationship_outputs =
      [("Total Streams vs Solo Streams", "solo_relationship.png"),
       ("Total Streams vs Featured Streams", "featured_relationship.png"),
       ("Total Streams vs Lead Streams", "lead_relationship.png")] ∧
    ∀ p ∈ relationship_outputs, p.2 ≠ titleToPath p.1 := by
  decide

/-- C6. The loader preserves row order and count: the result has exactly one
record per data row, the i-th record parsed from the i-th row. -/
theorem c6_loader_preserves_rows (rows : List (List String)) :
    (parse_artist_data rows).length = rows.length ∧
    ∀ i : ℕ, (parse_artist_data rows).get? i = (rows.get? i).map rowToRecord := by
  refine ⟨by simp [parse_artist_data], fun i => ?_⟩
  simp [parse_artist_data]

/-- C10. The coercion removes every comma regardless of position before
parsing: "12,3" coerces to 123 and "1,,2" to 12, and no comma survives
`stripCommas` on any input. -/
theorem c10_commas_stripped_everywhere :
    fieldValue ["x", "12,3"] 1 = 123 ∧ fieldValue ["x", "1,,2"] 1 = 12 ∧
    ∀ s : String, ',' ∉ (stripCommas s).data := by
  refine ⟨by decide, by decide, fun s => ?_⟩
  simp [stripCommas]

theorem sum_fst_const (data : List (ℚ × ℚ)) (c : ℚ) (h : ∀ p ∈ data, p.1 = c) :
    (data.map fun p => p.1).sum = (data.length : ℚ) * c := by
  induction data with
  | nil => simp
  | cons p t ih =>
      have hp : p.1 = c := h p (List.mem_cons_self p t)
      have ht := ih fun q hq => h q (List.mem_cons_of_mem p hq)
      simp only [List.map_cons, List.sum_cons, List.length_cons, hp, ht]
      push_cast
      ring

theorem sum_sq_const (data : List (ℚ × ℚ)) (c : ℚ) (h : ∀ p ∈ data, p.1 = c) :
    (data.map fun p => p.1 * p.1).sum = (data.length : ℚ) * (c * c) := by
  induction data with
  | nil => simp
  | cons p t ih =>
      have hp : p.1 = c := h p (List.mem_cons_self p t)
      have ht := ih fun q hq => h q (List.mem_cons_of_mem p hq)
      simp only [List.map_cons, List.sum_cons, List.length_cons, hp, ht]
      push_cast
      ring

theorem sum_xy_const (data : List (ℚ × ℚ)) (c : ℚ) (h : ∀ p ∈ data, p.1 = c) :
    (data.map fun p => p.1 * p.2).sum = c * (data.map fun p => p.2).sum := by
  induction data with
  | nil => simp
  | cons p t ih =>
      have hp : p.1 = c := h p (List.mem_cons_self p t)
      have ht := ih fun q hq => h q (List.mem_cons_of_mem p hq)
      simp only [List.map_cons, List.sum_cons, hp, ht]
      ring

/-- C5. On the empty sample sequence and on any non-empty sequence whose x
values are all identical, `calculate_regression` returns (it is total) and its
slope is non-finite: the zero denominator makes the IEEE division produce
NaN/infinity rather than raising an error. -/
theorem c5_degenerate_slope_nonfinite (data : List (ℚ × ℚ)) (c : ℚ)
    (h : data = [] ∨ ∀ p ∈ data, p.1 = c) :
    (calculate_regression data).1.isFinite = false := by
  rcases h with rfl | h
  · norm_num [calculate_regression, FP.div, FP.isFinite]
  · have hx := sum_fst_const data c h
    have hxx := sum_sq_const data c h
    have hxy := sum_xy_const data c h
    simp only [calculate_regression]
    rw [hxy, hxx, hx]
    have h1 : (data.length : ℚ) * (c * (data.map fun p => p.2).sum)
        - (data.length : ℚ) * c * (data.map fun p => p.2).sum = 0 := by ring
    have h2 : (data.length : ℚ) * ((data.length : ℚ) * (c * c))
        - (data.length : ℚ) * c * ((data.length : ℚ) * c) = 0 := by ring
    rw [h1, h2]
    norm_num [FP.div, FP.isFinite]

/-- Witness for C5: two samples sharing x = 2 give a non-finite slope. -/
theorem c5_degenerate_slope_nonfinite_witness :
    (calculate_regression [((2 : ℚ), 5), (2, 9)]).1.isFinite = false :=
  c5_degenerate_slope_nonfinite [((2 : ℚ), 5), (2, 9)] 2 (Or.inr (by decide))

theorem sumX_affine (data : List (ℚ × ℚ)) (a b : ℚ) :
    sumX (data.map fun p => (p.1, a * p.2 + b)) = sumX data := by
  induction data with
  | nil => rfl
  | cons p t ih =>
      simp only [sumX, List.map_cons, List.sum_cons] at ih ⊢
      rw [ih]

theorem sumXX_affine (data : List (ℚ × ℚ)) (a b : ℚ) :
    sumXX (data.map fun p => (p.1, a * p.2 + b)) = sumXX data := by
  induction data with
  | nil => rfl
  | cons p t ih =>
      simp only [sumXX, List.map_cons, List.sum_cons] at ih ⊢
      rw [ih]

theorem sumY_affine (data : List (ℚ × ℚ)) (a b : ℚ) :
    sumY (data.map fun p => (p.1, a * p.2 + b)) = a * sumY data + (data.length : ℚ) * b := by
  induction data with
  | nil => simp [sumY]
  | cons p t ih =>
      simp only [sumY, List.map_cons, List.sum_cons, List.length_cons] at ih ⊢
      rw [ih]
      push_cast
      ring

theorem sumXY_affine (data : List (ℚ × ℚ)) (a b : ℚ) :
    sumXY (data.map fun p => (p.1, a * p.2 + b)) = a * sumXY data + b * sumX data := by
  induction data with
  | nil => simp [sumXY, sumX]
  | cons p t ih =>
      simp only [sumXY, sumX, List.map_cons, List.sum_cons] at ih ⊢
      rw [ih]
      ring

theorem regDenom_affine (data : List (ℚ × ℚ)) (a b : ℚ) :
    regDenom (data.map fun p => (p.1, a * p.2 + b)) = regDenom data := by
  simp only [regDenom, sumX_affine, sumXX_affine, List.length_map]

theorem slopeQ_affine (data : List (ℚ × ℚ)) (a b : ℚ) :
    slopeQ (data.map fun p => (p.1, a * p.2 + b)) = a * slopeQ data := by
  simp only [slopeQ, regDenom_affine, sumXY_affine, sumY_affine, sumX_affine, List.length_map]
  rw [show (data.length : ℚ) * (a * sumXY data + b * sumX data)
      - sumX data * (a * sumY data + (data.length : ℚ) * b)
      = a * ((data.length : ℚ) * sumXY data - sumX data * sumY data) from by ring,
    mul_div_assoc]

theorem interceptQ_affine (data : List (ℚ × ℚ)) (a b : ℚ) (hn : (data.length : ℚ) ≠ 0) :
    interceptQ (data.map fun p => (p.1, a * p.2 + b)) = a * interceptQ data + b := by
  simp only [interceptQ, sumY_affine, sumX_affine, slopeQ_affine, List.length_map]
  field_simp
  ring

theorem calculate_regression_eq_fin (data : List (ℚ × ℚ)) (hd : regDenom data ≠ 0) :
    calculate_regression data = (.fin (slopeQ data), .fin (interceptQ data)) := by
  have hd' : (data.length : ℚ) * (data.map fun p => p.1 * p.1).sum
      - (data.map fun p => p.1).sum * (data.map fun p => p.1).sum ≠ 0 := hd
  have hne : data ≠ [] := by
    rintro rfl
    exact hd (by norm_num [regDenom, sumX, sumXX])
  have hn : (data.length : ℚ) ≠ 0 :=
    Nat.cast_ne_zero.mpr fun h0 => hne (List.length_eq_zero.mp h0)
  simp only [calculate_regression]
  rw [FP.div_fin_of_ne _ _ hd', FP.mul_fin, FP.sub_fin, FP.div_fin_of_ne _ _ hn]
  rfl

/-- C7. `calculate_regression` is scale-covariant: on a non-degenerate sample
sequence with fit (s, i), transforming every y to a·y + b yields the fit
(a·s, a·i + b). -/
theorem c7_fit_scale_covariant (data : List (ℚ × ℚ)) (a b s i : ℚ)
    (hd : regDenom data ≠ 0)
    (hs : calculate_regression data = (.fin s, .fin i)) :
    calculate_regression (data.map fun p => (p.1, a * p.2 + b))
      = (.fin (a * s), .fin (a * i + b)) := by
  have hne : data ≠ [] := by
    rintro rfl
    exact hd (by norm_num [regDenom, sumX, sumXX])
  have hn : (data.length : ℚ) ≠ 0 :=
    Nat.cast_ne_zero.mpr fun h0 => hne (List.length_eq_zero.mp h0)
  have hd2 : regDenom (data.map fun p => (p.1, a * p.2 + b)) ≠ 0 := by
    rw [regDenom_affine]
    exact hd
  rw [calculate_regression_eq_fin data hd] at hs
  simp only [Prod.mk.injEq, FP.fin.injEq] at hs
  obtain ⟨rfl, rfl⟩ := hs.symm.imp Eq.symm Eq.symm
  rw [calculate_regression_eq_fin _ hd2, slopeQ_affine, interceptQ_affine data a b hn]

/-- Witness for C7 at data [(1,2),(2,4)] (fit (2,0)) with a = 3, b = 1. -/
theorem c7_fit_scale_covariant_witness :
    calculate_regression ([((1 : ℚ), 2), (2, 4)].map fun p => (p.1, 3 * p.2 + 1))
      = (.fin (3 * 2), .fin (3 * 0 + 1)) :=
  c7_fit_scale_covariant [((1 : ℚ), 2), (2, 4)] 3 1 2 0
    (by norm_num [regDenom, sumX, sumXX])
    (by norm_num [calculate_regression, FP.div, FP.sub, FP.mul])

theorem takeDigits_all_digits (l : List Char) (h : ∀ c ∈ l, c.isDigit) :
    takeDigits l = (l, []) := by
  induction l with
  | nil => rfl
  | cons c t ih =>
      have hc : c.isDigit := h c (List.mem_cons_self c t)
      have ht := ih fun d hd => h d (List.mem_cons_of_mem c hd)
      simp [takeDigits, hc, ht]

theorem parseMantissa_all_digits (c : Char) (t : List Char) (h : ∀ d ∈ c :: t, d.isDigit) :
    parseMantissa (c :: t) = some ((digitsToNat (c :: t) : ℚ), []) := by
  simp only [parseMantissa, takeDigits_all_digits (c :: t) h]
  simp [List.isEmpty]

theorem parseF64_all_digits (c : Char) (t : List Char) (h : ∀ d ∈ c :: t, d.isDigit) :
    parseF64 (String.mk (c :: t)) = some ((digitsToNat (c :: t) : ℚ)) := by
  have hc : c.isDigit := h c (List.mem_cons_self c t)
  have h1 : ¬ c = '-' := by rintro rfl; exact absurd hc (by decide)
  have h2 : ¬ c = '+' := by rintro rfl; exact absurd hc (by decide)
  simp only [parseF64, String.mk, splitSign, h1, h2, if_false,
    parseMantissa_all_digits c t h]
  simp

theorem filter_comma_eq_filter_digit (l : List Char) (h : ∀ c ∈ l, c.isDigit ∨ c = ',') :
    (l.filter fun c => c ≠ ',') = l.filter Char.isDigit := by
  apply List.filter_congr
  intro c hc
  rcases h c hc with hd | rfl
  · simp only [decide_eq_true_eq, hd, decide_eq_true_eq]
    simp only [ne_eq, decide_not]
    have : ¬ c = ',' := by rintro rfl; exact absurd hd (by decide)
    simp [this, hd]
  · decide

/-- C8. A numeric cell made of digits and commas (with at least one digit)
parses, after comma stripping, to the exact value of its digit string: the
coercion returns that value, not the 0.0 fallback. -/
theorem c8_comma_numeral_parses (s : String)
    (h : ∀ c ∈ s.data, c.isDigit ∨ c = ',') (hd : ∃ c ∈ s.data, c.isDigit) :
    parseF64 (stripCommas s) = some ((digitsToNat (s.data.filter Char.isDigit) : ℚ)) := by
  have hfe : (s.data.filter fun c => c ≠ ',') = s.data.filter Char.isDigit :=
    filter_comma_eq_filter_digit s.data h
  have hall : ∀ d ∈ s.data.filter Char.isDigit, d.isDigit := fun d hdm =>
    List.of_mem_filter hdm
  obtain ⟨c0, hc0m, hc0⟩ := hd
  have hne : s.data.filter Char.isDigit ≠ [] := by
    intro h0
    exact absurd (h0 ▸ List.mem_filter.mpr ⟨hc0m, hc0⟩) (List.not_mem_nil c0)
  obtain ⟨c, t, hct⟩ : ∃ c t, s.data.filter Char.isDigit = c :: t := by
    rcases hl : s.data.filter Char.isDigit with _ | ⟨c, t⟩
    · exact absurd hl hne
    · exact ⟨c, t, rfl⟩
  rw [show stripCommas s = String.mk (s.data.filter Char.isDigit) from by
    simp only [stripCommas, hfe]]
  rw [hct]
  exact parseF64_all_digits c t (hct ▸ hall)

/-- Witness for C8: "1,234" coerces to 1234. -/
theorem c8_comma_numeral_parses_witness :
    parseF64 (stripCommas "1,234")
      = some ((digitsToNat ("1,234".data.filter Char.isDigit) : ℚ)) :=
  c8_comma_numeral_parses "1,234" (by decide) (by decide)

theorem parseMantissa_nonneg (cs : List Char) (m : ℚ) (rest : List Char)
    (h : parseMantissa cs = some (m, rest)) : 0 ≤ m := by
  simp only [parseMantissa] at h
  split at h
  · split at h
    · exact absurd h (by simp)
    · simp only [Option.some.injEq, Prod.mk.injEq] at h
      obtain ⟨rfl, -⟩ := h
      positivity
  · split at h
    · exact absurd h (by simp)
    · simp only [Option.some.injEq, Prod.mk.injEq] at h
      obtain ⟨rfl, -⟩ := h
      positivity

theorem parseExpPart_nonneg (m : ℚ) (r : List Char) (q : ℚ) (hm : 0 ≤ m)
    (h : parseF64.parseExpPart m r = some q) : 0 ≤ q := by
  simp only [parseF64.parseExpPart] at h
  split at h
  · exact absurd h (by simp)
  · simp only [Option.some.injEq] at h
    subst h
    split
    · positivity
    · positivity

theorem splitSign_fst_eq_false (l : List Char) (h : '-' ∉ l) : (splitSign l).1 = false := by
  cases l with
  | nil => rfl
  | cons c t =>
      have hc : ¬ c = '-' := fun e => h (e ▸ List.mem_cons_self c t)
      simp only [splitSign]
      rw [if_neg hc]
      split <;> rfl

theorem stripCommas_no_minus (s : String) (h : '-' ∉ s.data) :
    '-' ∉ (stripCommas s).data :=
  fun hm => h (List.mem_of_mem_filter hm)

theorem parseUnsigned_nonneg (cs : List Char) (q : ℚ)
    (h : parseUnsigned cs = some q) : 0 ≤ q := by
  simp only [parseUnsigned] at h
  split at h
  · exact absurd h (by simp)
  · rename_i m rest hpm
    have hm := parseMantissa_nonneg _ _ _ hpm
    split at h
    · simp only [Option.some.injEq] at h
      exact h ▸ hm
    · exact parseExpPart_nonneg _ _ _ hm h
    · exact parseExpPart_nonneg _ _ _ hm h
    · exact absurd h (by simp)

theorem parseF64F_nonneg_or_nan (s : String) (h : '-' ∉ s.data) :
    ((parseF64F s).getD (FP.fin 0)).isNonneg = true ∨
    (parseF64F s).getD (FP.fin 0) = FP.nan := by
  have hs1 : (splitSign s.data).1 = false := splitSign_fst_eq_false s.data h
  simp only [parseF64F, hs1, Bool.false_eq_true, if_false]
  split
  · left
    rfl
  · split
    · right
      rfl
    · rcases hq : parseUnsigned (splitSign s.data).2 with - | q
      · left
        simp [hq]
        rfl
      · have h0 := parseUnsigned_nonneg _ _ hq
        left
        simp [hq, FP.isNonneg, h0]

theorem fieldValueF_nonneg_or_nan (row : List String) (i : ℕ)
    (h : ∀ s ∈ row, '-' ∉ s.data) :
    (fieldValueF row i).isNonneg = true ∨ fieldValueF row i = FP.nan := by
  rcases hg : row.get? i with - | s
  · left
    have he : fieldValueF row i = (parseF64F (stripCommas "0")).getD (FP.fin 0) := by
      simp only [fieldValueF, hg, Option.getD_none]
    rw [he]
    decide
  · have hs : '-' ∉ s.data := h s (List.get?_mem hg)
    have he : fieldValueF row i = (parseF64F (stripCommas s)).getD (FP.fin 0) := by
      simp only [fieldValueF, hg, Option.getD_some]
    rw [he]
    exact parseF64F_nonneg_or_nan _ (stripCommas_no_minus s hs)

/-- C9 counterexample. A cell holding "-5" parses to the negative field value
−5 and a minus-free cell holding "nan" parses to NaN; neither satisfies
IEEE `0.0 <= x`, so records are not unconditionally non-negative. -/
theorem c9_nonneg_counterexample :
    (parse_artist_dataF [["A", "-5"], ["B", "nan"]]).map ArtistDataF.total_streams
      = [FP.fin (-5), FP.nan] ∧
    FP.isNonneg (FP.fin (-5)) = false ∧ FP.isNonneg FP.nan = false := by
  decide

/-- C9 amended. Record fields equal the coerced cell values; whenever no cell
of the row contains a minus sign, each field is either non-negative in the
IEEE sense (`0.0 <= x`, `+inf` included) or NaN (from a "nan" cell). A cell
with a negative numeral yields a negative field and a "nan" cell yields NaN,
so the unconditional non-negativity invariant does not hold. -/
theorem c9_nonneg_amended (row : List String) (h : ∀ s ∈ row, '-' ∉ s.data) :
    ((rowToRecordF row).total_streams.isNonneg = true ∨
      (rowToRecordF row).total_streams = FP.nan) ∧
    ((rowToRecordF row).solo_streams.isNonneg = true ∨
      (rowToRecordF row).solo_streams = FP.nan) ∧
    ((rowToRecordF row).feature_streams.isNonneg = true ∨
      (rowToRecordF row).feature_streams = FP.nan) ∧
    ((rowToRecordF row).lead_streams.isNonneg = true ∨
      (rowToRecordF row).lead_streams = FP.nan) :=
  ⟨fieldValueF_nonneg_or_nan row 1 h, fieldValueF_nonneg_or_nan row 3 h,
   fieldValueF_nonneg_or_nan row 5 h, fieldValueF_nonneg_or_nan row 4 h⟩

/-- Witness for the amended C9 on a concrete minus-free row containing a
numeral with commas, an unparseable cell, a "nan" cell, a missing cell, and
an exponent numeral. -/
theorem c9_nonneg_amended_witness :
    ((rowToRecordF ["A", "1,000", "x", "nan", "1e3"]).total_streams.isNonneg = true ∨
      (rowToRecordF ["A", "1,000", "x", "nan", "1e3"]).total_streams = FP.nan) ∧
    ((rowToRecordF ["A", "1,000", "x", "nan", "1e3"]).solo_streams.isNonneg = true ∨
      (rowToRecordF ["A", "1,000", "x", "nan", "1e3"]).solo_streams = FP.nan) ∧
    ((rowToRecordF ["A", "1,000", "x", "nan", "1e3"]).feature_streams.isNonneg = true ∨
      (rowToRecordF ["A", "1,000", "x", "nan", "1e3"]).feature_streams = FP.nan) ∧
    ((rowToRecordF ["A", "1,000", "x", "nan", "1e3"]).lead_streams.isNonneg = true ∨
      (rowToRecordF ["A", "1,000", "x", "nan", "1e3"]).lead_streams = FP.nan) :=
  c9_nonneg_amended ["A", "1,000", "x", "nan", "1e3"] (by decide)
